import Mathlib

/-!
Verification of the graphics-course repository.

The development shallowly embeds the pure computational parts of the five
standalone OpenGL programs of the repository:

* `src/2022/practice3/main.cpp` — the Bezier-curve program (`bezier`,
  `count_bezier_vertices`, and the event handlers of its render loop);
* `src/unnamed/part_001` — the isolines program (`coeff`, `add_new_point`,
  `create_isolines`);
* `src/unnamed/part_003` (second program) — the instanced LOD program
  (frustum-culling and LOD-bucketing loop, per-LOD instanced draw loop);
* the shader-compilation helpers (`create_shader`, `create_program`)
  duplicated in every file, and the shared initialization/error pipeline.

C++ `float` arithmetic on exactly-representable small integral data is
modelled over `ℚ`; the float-to-int cast is modelled as truncation toward
zero (`cFloatToInt`).  External library calls (GL driver behaviour, `glm`
vector length, the frustum intersection helper shipped as a header outside
this repository) are parameters of the corresponding definitions.
-/

namespace GraphicsCourse

/-- The C++ cast `(int)x` of a float holding the rational value `q`:
truncation toward zero. -/
def cFloatToInt (q : ℚ) : ℤ :=
  q.num.tdiv (q.den : ℤ)

theorem cFloatToInt_of_nonneg (q : ℚ) (h : 0 ≤ q) : cFloatToInt q = ⌊q⌋ := by
  rw [cFloatToInt, Int.tdiv_eq_ediv (Rat.num_nonneg.mpr h) (by positivity), Rat.floor_def]

theorem cFloatToInt_natCast (n : ℕ) : cFloatToInt (n : ℚ) = n := by
  rw [cFloatToInt_of_nonneg _ (by positivity)]
  exact_mod_cast Int.floor_natCast n

/-! ## The Bezier program — `src/2022/practice3/main.cpp`

`struct vec2 { float x; float y; }` and
`struct vertex { vec2 position; std::uint8_t color[4]; }`. -/

structure vec2 where
  x : ℚ
  y : ℚ
deriving DecidableEq, Repr

structure vertex where
  position : vec2
  color : ℕ × ℕ × ℕ × ℕ
deriving DecidableEq, Repr

/-- Default element used for out-of-range `getD` reads of vertex lists. -/
def v0 : vertex := ⟨⟨0, 0⟩, (0, 0, 0, 0)⟩

/-- One in-place update of the De Casteljau inner loop:
`points[i] = points[i] * (1 - t) + points[i + 1] * t`, componentwise. -/
def lerp (p q : vec2) (t : ℚ) : vec2 :=
  ⟨p.x * (1 - t) + q.x * t, p.y * (1 - t) + q.y * t⟩

/-- The inner loop `for (i = 0; i + k + 1 < n; ++i)` of `bezier`:
the first `m` entries (`m = n - k - 1`) are replaced by the interpolation
with their successor; every read in the C++ loop sees the pre-pass value,
so the pass is a pure map over the entry and its right neighbour. -/
def bezierPass (t : ℚ) : ℕ → List vec2 → List vec2
  | 0, l => l
  | _ + 1, [] => []
  | _ + 1, [p] => [p]
  | m + 1, p :: q :: rest => lerp p q t :: bezierPass t m (q :: rest)

/-- Embeds `vec2 bezier(std::vector<vertex> const & vertices, float t)`:
copies the positions, runs the two nested De Casteljau loops
(`for (k = 0; k + 1 < n; ++k)` around the inner pass), and returns
`points[0]` — an out-of-bounds read (`none`) when `vertices` is empty. -/
def bezier (vertices : List vertex) (t : ℚ) : Option vec2 :=
  let n := vertices.length
  let points := vertices.map (·.position)
  ((List.range (n - 1)).foldl (fun pts k => bezierPass t (n - k - 1) pts) points).head?

/-- Embeds `void count_bezier_vertices(int quality, ...)`: clears the output and,
for `i = 0, …, quality - 1`, pushes the vertex sampled at
`t = 1.f * i / (quality - 1)` with color `{0, 0, 0, 0}`.  Each sample is
`none` when the `points[0]` read inside `bezier` is out of bounds. -/
def count_bezier_vertices (quality : ℤ) (vertices : List vertex) :
    List (Option vertex) :=
  (List.range quality.toNat).map fun (i : ℕ) =>
    (bezier vertices ((i : ℚ) / ((quality : ℚ) - 1))).map fun p =>
      vertex.mk p (0, 0, 0, 0)

theorem bezierPass_length (t : ℚ) : ∀ (m : ℕ) (l : List vec2),
    (bezierPass t m l).length = l.length
  | 0, _ => rfl
  | _ + 1, [] => rfl
  | _ + 1, [_] => rfl
  | m + 1, _ :: q :: rest => by
      simp [bezierPass, bezierPass_length t m (q :: rest)]

theorem bezier_isSome (vertices : List vertex) (t : ℚ) (h : vertices ≠ []) :
    (bezier vertices t).isSome := by
  rw [bezier, List.head?_isSome]
  have : ∀ (ks : List ℕ) (pts : List vec2),
      (ks.foldl (fun pts k => bezierPass t (vertices.length - k - 1) pts) pts).length
        = pts.length := by
    intro ks
    induction ks with
    | nil => intro pts; rfl
    | cons k ks ih => intro pts; rw [List.foldl_cons, ih, bezierPass_length]
  intro hnil
  have hlen := this (List.range (vertices.length - 1)) (vertices.map (·.position))
  rw [hnil] at hlen
  simp only [List.length_nil, List.length_map] at hlen
  exact h (List.eq_nil_of_length_eq_zero hlen.symm)

theorem lerp_zero (p q : vec2) : lerp p q 0 = p := by
  simp [lerp]

theorem lerp_one (p q : vec2) : lerp p q 1 = q := by
  simp [lerp]

theorem bezierPass_zero : ∀ (m : ℕ) (l : List vec2), bezierPass 0 m l = l
  | 0, _ => rfl
  | _ + 1, [] => rfl
  | _ + 1, [_] => rfl
  | m + 1, p :: q :: rest => by
      rw [bezierPass, lerp_zero, bezierPass_zero m (q :: rest)]

/-- At `t = 1` a pass shifts each active entry to its right neighbour. -/
theorem bezierPass_one_getD (d : vec2) :
    ∀ (m : ℕ) (l : List vec2), m < l.length → ∀ i : ℕ,
      (bezierPass 1 m l).getD i d = if i < m then l.getD (i + 1) d else l.getD i d
  | 0, l, _, i => by simp [bezierPass]
  | m + 1, p :: q :: rest, hm, i => by
      rw [bezierPass, lerp_one]
      match i with
      | 0 => simp
      | i + 1 =>
          have hm' : m < (q :: rest).length := by
            simpa [Nat.succ_lt_succ_iff] using hm
          rw [List.getD_cons_succ, bezierPass_one_getD d m (q :: rest) hm' i]
          by_cases h : i < m
          · rw [if_pos h, if_pos (by omega)]
            simp [List.getD_cons_succ]
          · rw [if_neg h, if_neg (by omega)]
            simp [List.getD_cons_succ]
  | m + 1, [p], hm, i => by
      simp only [List.length_singleton] at hm
      omega
  | _ + 1, [], hm, i => by simp at hm

/-- The De Casteljau fold of `bezier` preserves the list length. -/
theorem bezierFold_length (t : ℚ) (n : ℕ) (ks : List ℕ) (pts : List vec2) :
    (ks.foldl (fun pts k => bezierPass t (n - k - 1) pts) pts).length = pts.length := by
  induction ks generalizing pts with
  | nil => rfl
  | cons k ks ih => rw [List.foldl_cons, ih, bezierPass_length]

/-- At `t = 1`, after the passes `k = 0, …, j - 1`, entry `i` of the working
array holds the original entry `min (i + j) (n - 1)`. -/
theorem bezierFold_one_getD (d : vec2) (l : List vec2) (j : ℕ)
    (hj : j ≤ l.length - 1) (hl : l ≠ []) : ∀ i < l.length,
    ((List.range j).foldl (fun pts k => bezierPass 1 (l.length - k - 1) pts) l).getD i d
      = l.getD (min (i + j) (l.length - 1)) d := by
  induction j with
  | zero =>
      intro i hi
      rw [List.range_zero, List.foldl_nil]
      congr 1
      omega
  | succ j ih =>
      intro i hi
      have hlen : 0 < l.length := List.length_pos.mpr hl
      rw [List.range_succ, List.foldl_append, List.foldl_cons, List.foldl_nil]
      have hfoldlen :
          ((List.range j).foldl (fun pts k => bezierPass 1 (l.length - k - 1) pts) l).length
            = l.length := bezierFold_length 1 l.length (List.range j) l
      rw [bezierPass_one_getD d (l.length - j - 1) _ (by omega) i]
      by_cases h : i < l.length - j - 1
      · rw [if_pos h, ih (by omega) (i + 1) (by omega)]
        congr 1
        omega
      · rw [if_neg h, ih (by omega) i hi]
        congr 1
        omega

theorem head?_eq_getD (l : List vec2) (d : vec2) (h : l ≠ []) :
    l.head? = some (l.getD 0 d) := by
  cases l with
  | nil => exact absurd rfl h
  | cons a t => rfl

/-- Evaluating `bezier` at `t = 0` returns the first control point's position. -/
theorem bezier_at_zero (vertices : List vertex) (hv : vertices ≠ []) :
    bezier vertices 0 = some (vertices.headD v0).position := by
  have hfold : ∀ (ks : List ℕ) (pts : List vec2),
      ks.foldl (fun pts k => bezierPass 0 (vertices.length - k - 1) pts) pts = pts := by
    intro ks
    induction ks with
    | nil => intro pts; rfl
    | cons k ks ih => intro pts; rw [List.foldl_cons, bezierPass_zero, ih]
  rw [bezier, hfold]
  cases vertices with
  | nil => exact absurd rfl hv
  | cons a t => rfl

/-- Evaluating `bezier` at `t = 1` returns the last control point's position. -/
theorem bezier_at_one (vertices : List vertex) (hv : vertices ≠ []) :
    bezier vertices 1 = some (vertices.getLastD v0).position := by
  have hl : vertices.map (·.position) ≠ [] := by
    simpa using hv
  have hlen : (vertices.map (·.position)).length = vertices.length :=
    List.length_map _ _
  rw [bezier, head?_eq_getD _ (v0.position) (by
    intro hnil
    have := bezierFold_length 1 vertices.length
      (List.range (vertices.length - 1)) (vertices.map (·.position))
    rw [hnil] at this
    simp only [List.length_nil, List.length_map] at this
    exact hv (List.eq_nil_of_length_eq_zero this.symm))]
  have hlpos : 0 < vertices.length := List.length_pos.mpr hv
  have := bezierFold_one_getD (v0.position) (vertices.map (·.position))
    (vertices.length - 1) (by omega) hl 0 (by omega)
  rw [hlen] at this
  rw [this, Nat.zero_add, Nat.min_self]
  have hgetD : (vertices.map (·.position)).getD (vertices.length - 1) (v0.position)
      = (vertices.getD (vertices.length - 1) v0).position :=
    List.getD_map vertices v0 (·.position)
  rw [hgetD]
  congr 2
  rw [List.getD_eq_getElem?_getD, List.getLastD_eq_getLast?, List.getLast?_eq_getElem?]

theorem getD_map_range {α : Type} (n i : ℕ) (f : ℕ → α) (d : α) (h : i < n) :
    ((List.range n).map f).getD i d = f i := by
  rw [List.getD_eq_getElem?_getD, List.getElem?_map, List.getElem?_range h]
  rfl

/-- C3: for a non-empty control-point list and `quality ≥ 2`,
`count_bezier_vertices` produces exactly `quality` samples, the `i`-th at
parameter `t = i / (quality - 1)`; `bezier` on a single control point
returns its position unchanged, the first sample equals the first control
point's position, and the last sample equals the last control point's
position. -/
theorem bezier_sampling_correct (vertices : List vertex) (quality : ℤ)
    (hv : vertices ≠ []) (hq : 2 ≤ quality) :
    ((count_bezier_vertices quality vertices).length : ℤ) = quality ∧
    (∀ i < quality.toNat,
      (count_bezier_vertices quality vertices).getD i none
        = (bezier vertices ((i : ℚ) / ((quality : ℚ) - 1))).map
            (fun p => vertex.mk p (0, 0, 0, 0))) ∧
    (∀ (p : vertex) (t : ℚ), bezier [p] t = some p.position) ∧
    (count_bezier_vertices quality vertices).getD 0 none
      = some (vertex.mk (vertices.headD v0).position (0, 0, 0, 0)) ∧
    (count_bezier_vertices quality vertices).getD (quality.toNat - 1) none
      = some (vertex.mk (vertices.getLastD v0).position (0, 0, 0, 0)) := by
  have hqn : (quality.toNat : ℤ) = quality := Int.toNat_of_nonneg (by omega)
  have hqpos : 0 < quality.toNat := by omega
  refine ⟨?_, ?_, ?_, ?_, ?_⟩
  · rw [count_bezier_vertices, List.length_map, List.length_range, hqn]
  · intro i hi
    exact getD_map_range quality.toNat i _ none hi
  · intro p t
    rfl
  · rw [count_bezier_vertices, getD_map_range quality.toNat 0 _ none hqpos]
    rw [Nat.cast_zero, zero_div, bezier_at_zero vertices hv]
    rfl
  · rw [count_bezier_vertices, getD_map_range quality.toNat _ _ none (by omega)]
    have hcast : ((quality.toNat - 1 : ℕ) : ℚ) = (quality : ℚ) - 1 := by
      rw [Nat.cast_sub (by omega), Nat.cast_one]
      congr 1
      exact_mod_cast hqn
    have hne : (quality : ℚ) - 1 ≠ 0 := by
      have : (2 : ℚ) ≤ (quality : ℚ) := by exact_mod_cast hq
      intro habs
      rw [sub_eq_zero] at habs
      rw [habs] at this
      norm_num at this
    rw [hcast, div_self hne, bezier_at_one vertices hv]
    rfl

theorem bezier_sampling_correct_witness :
    (([⟨⟨1, 2⟩, (0, 0, 0, 0)⟩, ⟨⟨3, 4⟩, (0, 0, 0, 0)⟩] : List vertex) ≠ []) ∧
    ((count_bezier_vertices 2
        [⟨⟨1, 2⟩, (0, 0, 0, 0)⟩, ⟨⟨3, 4⟩, (0, 0, 0, 0)⟩]).length : ℤ) = 2 :=
  ⟨by decide,
   (bezier_sampling_correct [⟨⟨1, 2⟩, (0, 0, 0, 0)⟩, ⟨⟨3, 4⟩, (0, 0, 0, 0)⟩] 2
      (by decide) (by decide)).1⟩

/-! ### The event loop of the Bezier program

Events recognised by the render loop of `src/2022/practice3/main.cpp` that
touch the control-point list or the quality counter.  Each branch that
mutates state calls `update_vbos(quality, vertices, …)`, which calls
`count_bezier_vertices` with those arguments; those calls are recorded. -/

inductive BezEvent where
  | leftClick (x y : ℤ)
  | rightClick
  | keyLeft
  | keyRight
  | other
deriving DecidableEq

structure UpdateCall where
  quality : ℤ
  vertices : List vertex
deriving DecidableEq, Repr

structure BezState where
  vertices : List vertex
  quality : ℤ
deriving DecidableEq, Repr

/-- Initial state: `vertices = {v1, v2, v3}` (positions `(100,100)`, `(100,600)`,
`(600,100)`, color `{20,20,20,20}`), `quality = 30`. -/
def initBezState : BezState :=
  ⟨[⟨⟨100, 100⟩, (20, 20, 20, 20)⟩, ⟨⟨100, 600⟩, (20, 20, 20, 20)⟩,
    ⟨⟨600, 100⟩, (20, 20, 20, 20)⟩], 30⟩

/-- One iteration of the event `switch`: left click pushes a vertex at the
mouse position and updates; right click pops the last vertex (guarded by
`vertices.size() != 0`) and updates; LEFT decrements `quality` (guarded by
`quality > 1`) and updates; RIGHT increments `quality` and updates. -/
def bezStep (s : BezState) : BezEvent → BezState × List UpdateCall
  | .leftClick x y =>
      let vs := s.vertices ++ [⟨⟨(x : ℚ), (y : ℚ)⟩, (20, 20, 20, 20)⟩]
      (⟨vs, s.quality⟩, [⟨s.quality, vs⟩])
  | .rightClick =>
      if s.vertices.length ≠ 0 then
        let vs := s.vertices.dropLast
        (⟨vs, s.quality⟩, [⟨s.quality, vs⟩])
      else (s, [])
  | .keyLeft =>
      if 1 < s.quality then
        (⟨s.vertices, s.quality - 1⟩, [⟨s.quality - 1, s.vertices⟩])
      else (s, [])
  | .keyRight => (⟨s.vertices, s.quality + 1⟩, [⟨s.quality + 1, s.vertices⟩])
  | .other => (s, [])

/-- The event loop from the initial state, collecting every
`count_bezier_vertices` call made by the handlers. -/
def bezRun (events : List BezEvent) : BezState × List UpdateCall :=
  events.foldl
    (fun acc e => ((bezStep acc.1 e).1, acc.2 ++ (bezStep acc.1 e).2))
    (initBezState, [])

theorem bezStep_quality_lower (s : BezState) (e : BezEvent)
    (h : 1 ≤ s.quality) : 1 ≤ (bezStep s e).1.quality := by
  cases e with
  | leftClick x y => exact h
  | rightClick =>
      rw [bezStep]
      split <;> exact h
  | keyLeft =>
      rw [bezStep]
      split
      · dsimp only
        omega
      · exact h
  | keyRight =>
      rw [bezStep]
      dsimp only
      omega
  | other => exact h

theorem bezStep_call_quality_lower (s : BezState) (e : BezEvent)
    (h : 1 ≤ s.quality) : ∀ c ∈ (bezStep s e).2, 1 ≤ c.quality := by
  cases e with
  | leftClick x y =>
      intro c hc
      rw [bezStep, List.mem_singleton] at hc
      rw [hc]
      exact h
  | rightClick =>
      intro c hc
      rw [bezStep] at hc
      split at hc
      · rw [List.mem_singleton] at hc
        rw [hc]
        exact h
      · simp at hc
  | keyLeft =>
      intro c hc
      rw [bezStep] at hc
      split at hc
      · rw [List.mem_singleton] at hc
        rw [hc]
        dsimp only
        omega
      · simp at hc
  | keyRight =>
      intro c hc
      rw [bezStep, List.mem_singleton] at hc
      rw [hc]
      dsimp only
      omega
  | other =>
      intro c hc
      simp [bezStep] at hc

/-- C6: the event handlers change the control-point list and the quality
counter exactly as the spec says, other events leave the state unchanged,
and `quality ≥ 1` holds in every reachable state of the event loop. -/
theorem bez_event_handlers (s : BezState) (x y : ℤ) (events : List BezEvent) :
    (bezStep s (.leftClick x y)).1
      = ⟨s.vertices ++ [⟨⟨(x : ℚ), (y : ℚ)⟩, (20, 20, 20, 20)⟩], s.quality⟩ ∧
    (bezStep s .rightClick).1
      = (if s.vertices.length ≠ 0 then ⟨s.vertices.dropLast, s.quality⟩ else s) ∧
    (bezStep s .keyLeft).1
      = (if 1 < s.quality then ⟨s.vertices, s.quality - 1⟩ else s) ∧
    (bezStep s .keyRight).1 = ⟨s.vertices, s.quality + 1⟩ ∧
    (bezStep s .other).1 = s ∧
    1 ≤ (bezRun events).1.quality := by
  refine ⟨rfl, ?_, ?_, rfl, rfl, ?_⟩
  · rw [bezStep]
    split <;> rfl
  · rw [bezStep]
    split <;> rfl
  · have : ∀ (l : List BezEvent) (acc : BezState × List UpdateCall),
        1 ≤ acc.1.quality →
        1 ≤ (l.foldl
          (fun acc e => ((bezStep acc.1 e).1, acc.2 ++ (bezStep acc.1 e).2))
          acc).1.quality := by
      intro l
      induction l with
      | nil => intro acc h; exact h
      | cons e l ih =>
          intro acc h
          exact ih _ (bezStep_quality_lower acc.1 e h)
    exact this events (initBezState, []) (by norm_num [initBezState])

/-- C8 counterexample: three right clicks from the initial state (three
control points) leave the list empty, and the handler still calls
`update_vbos`, so `count_bezier_vertices` invokes `bezier` on the empty
list, where the `points[0]` read is out of bounds (`none`). -/
theorem bezier_oob_counterexample :
    (bezRun (List.replicate 3 BezEvent.rightClick)).2.getLast?
        = some ⟨30, []⟩ ∧
    bezier [] 0 = none ∧
    (count_bezier_vertices 30 []).getD 0 none = none := by
  refine ⟨by decide, rfl, rfl⟩

/-- C8 amended: every `count_bezier_vertices` call recorded by the event
loop whose control-point list is non-empty has all its `bezier` samples in
bounds; the guard on the right-click handler protects only the `pop_back`,
not the subsequent `bezier` calls. -/
theorem bezier_nonempty_safe (events : List BezEvent) (c : UpdateCall)
    (_hc : c ∈ (bezRun events).2) (hne : c.vertices ≠ []) :
    ∀ o ∈ count_bezier_vertices c.quality c.vertices, o.isSome := by
  intro o ho
  rw [count_bezier_vertices, List.mem_map] at ho
  obtain ⟨i, hi, rfl⟩ := ho
  simpa using bezier_isSome c.vertices ((i : ℚ) / ((c.quality : ℚ) - 1)) hne

theorem bezier_nonempty_safe_witness :
    (UpdateCall.mk 30 [⟨⟨100, 100⟩, (20, 20, 20, 20)⟩, ⟨⟨100, 600⟩, (20, 20, 20, 20)⟩]
        ∈ (bezRun [BezEvent.rightClick]).2) ∧
    ([⟨⟨100, 100⟩, (20, 20, 20, 20)⟩, ⟨⟨100, 600⟩, (20, 20, 20, 20)⟩] : List vertex) ≠ [] ∧
    ((bezier [⟨⟨100, 100⟩, (20, 20, 20, 20)⟩, ⟨⟨100, 600⟩, (20, 20, 20, 20)⟩]
        (((0 : ℕ) : ℚ) / (((30 : ℤ) : ℚ) - 1))).map
      (fun p => vertex.mk p (0, 0, 0, 0))).isSome := by
  refine ⟨by decide, by decide, ?_⟩
  exact bezier_nonempty_safe [BezEvent.rightClick]
    (UpdateCall.mk 30
      [⟨⟨100, 100⟩, (20, 20, 20, 20)⟩, ⟨⟨100, 600⟩, (20, 20, 20, 20)⟩])
    (by decide) (by decide) _ (List.mem_map_of_mem _ (by decide))

/-- C9 counterexample: 29 LEFT presses from the initial `quality = 30` are
all taken (each guard `quality > 1` holds), the last one decrements
`quality` to `1` and calls `count_bezier_vertices` with it, making the
divisor `quality - 1` equal to zero. -/
theorem quality_divisor_zero_counterexample :
    (bezRun (List.replicate 29 BezEvent.keyLeft)).2.getLast?
        = some ⟨1, initBezState.vertices⟩ ∧
    ((bezRun (List.replicate 29 BezEvent.keyLeft)).2.getLast?.map
        (fun c => c.quality - 1)) = some 0 := by
  exact ⟨by decide, by decide⟩

theorem bezFold_call_quality (l : List BezEvent) (acc : BezState × List UpdateCall)
    (hs : 1 ≤ acc.1.quality) (hcalls : ∀ c ∈ acc.2, 1 ≤ c.quality) :
    ∀ c ∈ (l.foldl
        (fun acc e => ((bezStep acc.1 e).1, acc.2 ++ (bezStep acc.1 e).2))
        acc).2, 1 ≤ c.quality := by
  induction l generalizing acc with
  | nil => exact hcalls
  | cons e l ih =>
      rw [List.foldl_cons]
      refine ih _ (bezStep_quality_lower acc.1 e hs) ?_
      intro c hc
      rw [List.mem_append] at hc
      rcases hc with hc | hc
      · exact hcalls c hc
      · exact bezStep_call_quality_lower acc.1 e hs c hc

/-- C9 amended: every `count_bezier_vertices` call recorded by the event
loop from the initial state has `quality ≥ 1`, so the divisor
`quality - 1` is nonnegative and vanishes exactly when `quality = 1` —
which is reachable (29 LEFT presses), so `quality ≥ 2` does not hold at
every call site. -/
theorem bezRun_call_quality (events : List BezEvent) (c : UpdateCall)
    (hc : c ∈ (bezRun events).2) : 1 ≤ c.quality := by
  refine bezFold_call_quality events (initBezState, [])
    (by norm_num [initBezState]) ?_ c hc
  intro c hc
  simp at hc

theorem bezRun_call_quality_witness :
    (UpdateCall.mk 31 initBezState.vertices ∈ (bezRun [BezEvent.keyRight]).2) ∧
    1 ≤ (UpdateCall.mk 31 initBezState.vertices).quality :=
  ⟨by decide, bezRun_call_quality [BezEvent.keyRight] _ (by decide)⟩

/-! ## The isolines program — `src/unnamed/part_001`

`struct colour { std::uint8_t color[4]; }`; the marching-squares-like
isoline extraction reads `color[0]` of the four corners of each grid
cell. -/

structure colour where
  color : ℕ × ℕ × ℕ × ℕ
deriving DecidableEq, Repr

/-- Embeds `float coeff(float val1, float val2, int border)`:
`(border - val1) / (val2 - val1)`. -/
def coeff (val1 val2 : ℚ) (border : ℤ) : ℚ :=
  ((border : ℚ) - val1) / (val2 - val1)

/-- The three containers mutated by `create_isolines`: the emitted points,
the emitted indices, and the `std::map<std::pair<int,int>,int>` (which is
created empty and never inserted into). -/
structure IsoState where
  isopoints : List vec2
  iso_indices : List ℕ
  indices_map : List (ℤ × ℤ)
deriving DecidableEq, Repr

/-- Embeds `add_new_point(first_colour, ind1, second_colour, ind2, border, …)`:
interpolates the positions of grid points `ind1` and `ind2` with
`q = coeff(first_colour, second_colour, border)` (the `float` argument
`border` is implicitly converted to `int`, truncating), always pushes the
point onto `isopoints`, and pushes `iso_indices.size()` onto `iso_indices`
iff the map has no entry for the `int`-truncated point. -/
def add_new_point (first_colour : ℕ) (ind1 : ℤ) (second_colour : ℕ) (ind2 : ℤ)
    (border : ℚ) (points : List vec2) (st : IsoState) : IsoState :=
  let q := coeff (first_colour : ℚ) (second_colour : ℚ) (cFloatToInt border)
  let p1 := points.getD ind1.toNat ⟨0, 0⟩
  let p2 := points.getD ind2.toNat ⟨0, 0⟩
  let point : vec2 := ⟨p1.x * (1 - q) + p2.x * q, p1.y * (1 - q) + p2.y * q⟩
  let isopoints := st.isopoints ++ [point]
  let iso_indices :=
    if (cFloatToInt point.x, cFloatToInt point.y) ∈ st.indices_map then
      st.iso_indices
    else
      st.iso_indices ++ [st.iso_indices.length]
  ⟨isopoints, iso_indices, st.indices_map⟩

/-- Embeds `(int)(lu > border) + (int)(ru > border) + (int)(ld > border) + (int)(rd > border)`. -/
def cellSum (border : ℚ) (lu ru ld rd : ℕ) : ℕ :=
  (decide (border < (lu : ℚ))).toNat + (decide (border < (ru : ℚ))).toNat
    + (decide (border < (ld : ℚ))).toNat + (decide (border < (rd : ℚ))).toNat

/-- The body of the cell loop of `create_isolines`, applied to the four
corner values and indices already read from the colour grid: skip the cell
when all corners lie on one side of the threshold, otherwise emit a point
for each of the four tested edges whose corners straddle it. -/
def processCellCore (lu : ℕ) (lu_ind : ℤ) (ru : ℕ) (ru_ind : ℤ)
    (ld : ℕ) (ld_ind : ℤ) (rd : ℕ) (rd_ind : ℤ)
    (border : ℚ) (points : List vec2) (st : IsoState) : IsoState :=
  let sum := cellSum border lu ru ld rd
  if sum = 0 ∨ sum = 4 then st
  else
    let st1 := if decide (border < (lu : ℚ)) != decide (border < (ru : ℚ))
      then add_new_point lu lu_ind ru ru_ind border points st else st
    let st2 := if decide (border < (rd : ℚ)) != decide (border < (ru : ℚ))
      then add_new_point rd rd_ind ru ru_ind border points st1 else st1
    let st3 := if decide (border < (ld : ℚ)) != decide (border < (rd : ℚ))
      then add_new_point ld ld_ind rd rd_ind border points st2 else st2
    let st4 := if decide (border < (ld : ℚ)) != decide (border < (lu : ℚ))
      then add_new_point ld ld_ind lu lu_ind border points st3 else st3
    st4

/-- The cell loop body of `create_isolines` at cell `(i, j)`: reads
`point_colours[…].color[0]` at the four corner indices and hands them to
`processCellCore`. -/
def processCell (points : List vec2) (point_colours : List colour)
    (max_y : ℤ) (border : ℚ) (i j : ℕ) (st : IsoState) : IsoState :=
  let lu_ind : ℤ := (i : ℤ) * max_y + (j : ℤ)
  let ru_ind : ℤ := ((i : ℤ) + 1) * max_y + (j : ℤ)
  let ld_ind : ℤ := (i : ℤ) * max_y + ((j : ℤ) + 1)
  let rd_ind : ℤ := ((i : ℤ) + 1) * max_y + ((j : ℤ) + 1)
  let lu := (point_colours.getD lu_ind.toNat ⟨(0, 0, 0, 0)⟩).color.1
  let ru := (point_colours.getD ru_ind.toNat ⟨(0, 0, 0, 0)⟩).color.1
  let ld := (point_colours.getD ld_ind.toNat ⟨(0, 0, 0, 0)⟩).color.1
  let rd := (point_colours.getD rd_ind.toNat ⟨(0, 0, 0, 0)⟩).color.1
  processCellCore lu lu_ind ru ru_ind ld ld_ind rd rd_ind border points st

/-- Embeds `create_isolines`: clears the three containers and, for every
threshold `Cs[k]` and every cell `(i, j)` of the `(max_x - 1) × (max_y - 1)`
cell grid, runs the cell body. -/
def create_isolines (points : List vec2) (point_colours : List colour)
    (max_x max_y : ℤ) (Cs : List ℕ) : IsoState :=
  (List.range Cs.length).foldl (fun st k =>
    let border : ℚ := ((Cs.getD k 0 : ℕ) : ℚ)
    (List.range (max_x - 1).toNat).foldl (fun st i =>
      (List.range (max_y - 1).toNat).foldl (fun st j =>
        processCell points point_colours max_y border i j st) st) st)
    ⟨[], [], []⟩

/-- The four cell edges tested by `create_isolines`, in program order:
`(lu, ru)`, `(rd, ru)`, `(ld, rd)`, `(ld, lu)`, each as
`((value, index), (value, index))`. -/
def isoEdges (lu ru ld rd : ℕ) (lu_ind ru_ind ld_ind rd_ind : ℤ) :
    List ((ℕ × ℤ) × (ℕ × ℤ)) :=
  [((lu, lu_ind), (ru, ru_ind)), ((rd, rd_ind), (ru, ru_ind)),
   ((ld, ld_ind), (rd, rd_ind)), ((ld, ld_ind), (lu, lu_ind))]

/-- An edge's two corner values lie on opposite sides of the threshold. -/
def straddleB (border : ℚ) (e : (ℕ × ℤ) × (ℕ × ℤ)) : Bool :=
  decide (border < (e.1.1 : ℚ)) != decide (border < (e.2.1 : ℚ))

/-- The point the claim predicts for an edge: linear interpolation of the
two corner positions with coefficient `(threshold - v1) / (v2 - v1)`. -/
def interpPoint (c : ℕ) (points : List vec2) (e : (ℕ × ℤ) × (ℕ × ℤ)) : vec2 :=
  let q := ((c : ℚ) - (e.1.1 : ℚ)) / ((e.2.1 : ℚ) - (e.1.1 : ℚ))
  let p1 := points.getD e.1.2.toNat ⟨0, 0⟩
  let p2 := points.getD e.2.2.toNat ⟨0, 0⟩
  ⟨p1.x * (1 - q) + p2.x * q, p1.y * (1 - q) + p2.y * q⟩

theorem straddle_sub_ne (border : ℚ) (v1 v2 : ℕ) (i1 i2 : ℤ)
    (h : straddleB border ((v1, i1), (v2, i2)) = true) :
    (v2 : ℚ) - (v1 : ℚ) ≠ 0 := by
  rw [straddleB] at h
  by_cases h1 : border < (v1 : ℚ) <;> by_cases h2 : border < (v2 : ℚ) <;>
    simp [h1, h2] at h ⊢ <;> intro habs <;> rw [sub_eq_zero] at habs <;>
    rw [habs] at h2 <;> exact absurd h1 (by simpa using h2)

/-- C2: for every threshold value `c` (a `uint8` from `Cs`) and every grid
cell, the cell body of `create_isolines` appends exactly one point per
tested edge whose corner values straddle the threshold — the linear
interpolation of the corner positions with coefficient
`(threshold - v1) / (v2 - v1)` — in particular no point when all four
corners lie on one side (corner count `0` or `4`), and the divisor
`v2 - v1` is nonzero on every straddling edge. -/
theorem isoline_cell_correct (c : ℕ) (lu ru ld rd : ℕ)
    (lu_ind ru_ind ld_ind rd_ind : ℤ) (points : List vec2) (st : IsoState) :
    (processCellCore lu lu_ind ru ru_ind ld ld_ind rd rd_ind
        ((c : ℕ) : ℚ) points st).isopoints
      = st.isopoints
        ++ ((isoEdges lu ru ld rd lu_ind ru_ind ld_ind rd_ind).filter
              (straddleB ((c : ℕ) : ℚ))).map (interpPoint c points) ∧
    (cellSum ((c : ℕ) : ℚ) lu ru ld rd = 0 ∨ cellSum ((c : ℕ) : ℚ) lu ru ld rd = 4 →
      (processCellCore lu lu_ind ru ru_ind ld ld_ind rd rd_ind
          ((c : ℕ) : ℚ) points st).isopoints = st.isopoints) ∧
    (∀ e ∈ isoEdges lu ru ld rd lu_ind ru_ind ld_ind rd_ind,
      straddleB ((c : ℕ) : ℚ) e = true → (e.2.1 : ℚ) - (e.1.1 : ℚ) ≠ 0) := by
  have hcast : ((cFloatToInt ((c : ℕ) : ℚ) : ℤ) : ℚ) = ((c : ℕ) : ℚ) := by
    rw [cFloatToInt_natCast]
    norm_cast
  refine ⟨?_, ?_, ?_⟩
  · by_cases h1 : ((c : ℕ) : ℚ) < (lu : ℚ) <;>
      by_cases h2 : ((c : ℕ) : ℚ) < (ru : ℚ) <;>
      by_cases h3 : ((c : ℕ) : ℚ) < (ld : ℚ) <;>
      by_cases h4 : ((c : ℕ) : ℚ) < (rd : ℚ) <;>
      simp [processCellCore, cellSum, add_new_point, straddleB, isoEdges,
        interpPoint, coeff, hcast, h1, h2, h3, h4]
  · intro h
    rw [processCellCore, if_pos h]
  · intro e he hs
    rw [isoEdges] at he
    simp only [List.mem_cons, List.not_mem_nil, or_false] at he
    rcases he with rfl | rfl | rfl | rfl <;>
      exact straddle_sub_ne _ _ _ _ _ hs

theorem isoline_cell_correct_witness :
    (cellSum ((0 : ℕ) : ℚ) 0 0 0 0 = 0 ∨ cellSum ((0 : ℕ) : ℚ) 0 0 0 0 = 4) ∧
    (processCellCore 0 1 0 2 0 3 0 4 ((0 : ℕ) : ℚ) [] ⟨[], [], []⟩).isopoints
      = (IsoState.mk [] [] []).isopoints :=
  ⟨by decide, (isoline_cell_correct 0 0 0 0 0 1 2 3 4 [] ⟨[], [], []⟩).2.1 (by decide)⟩

/-- Invariant of the three isoline containers: the `std::map` is still
empty and the index list is the identity sequence on the point list. -/
def IsoInv (st : IsoState) : Prop :=
  st.indices_map = [] ∧ st.iso_indices = List.range st.isopoints.length

theorem isoInv_add_new_point (fc : ℕ) (i1 : ℤ) (sc : ℕ) (i2 : ℤ) (border : ℚ)
    (points : List vec2) (st : IsoState) (h : IsoInv st) :
    IsoInv (add_new_point fc i1 sc i2 border points st) := by
  obtain ⟨hm, hr⟩ := h
  constructor
  · exact hm
  · rw [add_new_point]
    dsimp only
    rw [hm, if_neg (List.not_mem_nil _), hr, List.length_range,
      List.length_append, List.length_singleton, List.range_succ]

theorem isoInv_processCellCore (lu : ℕ) (lu_ind : ℤ) (ru : ℕ) (ru_ind : ℤ)
    (ld : ℕ) (ld_ind : ℤ) (rd : ℕ) (rd_ind : ℤ) (border : ℚ)
    (points : List vec2) (st : IsoState) (h : IsoInv st) :
    IsoInv (processCellCore lu lu_ind ru ru_ind ld ld_ind rd rd_ind
      border points st) := by
  rw [processCellCore]
  dsimp only
  split_ifs <;>
    (repeat first
      | exact h
      | apply isoInv_add_new_point)

theorem isoInv_processCell (points : List vec2) (point_colours : List colour)
    (max_y : ℤ) (border : ℚ) (i j : ℕ) (st : IsoState) (h : IsoInv st) :
    IsoInv (processCell points point_colours max_y border i j st) :=
  isoInv_processCellCore _ _ _ _ _ _ _ _ _ _ _ h

theorem isoInv_foldl {α : Type} (f : IsoState → α → IsoState)
    (hf : ∀ st a, IsoInv st → IsoInv (f st a)) (l : List α) (st : IsoState)
    (h : IsoInv st) : IsoInv (l.foldl f st) := by
  induction l generalizing st with
  | nil => exact h
  | cons a l ih => exact ih _ (hf st a h)

/-- C10: after every call to `create_isolines` the output index list is
exactly the identity sequence `0, 1, …, isopoints.size() - 1`: the
`std::map` guard in `add_new_point` never fires because the map is never
populated, so one index is appended per emitted point and no index is
skipped or deduplicated — for every grid, colour field and threshold
list. -/
theorem iso_indices_identity (points : List vec2) (point_colours : List colour)
    (max_x max_y : ℤ) (Cs : List ℕ) :
    (create_isolines points point_colours max_x max_y Cs).iso_indices
      = List.range
          (create_isolines points point_colours max_x max_y Cs).isopoints.length := by
  have hinv : IsoInv (create_isolines points point_colours max_x max_y Cs) := by
    rw [create_isolines]
    refine isoInv_foldl _ ?_ _ _ ⟨rfl, rfl⟩
    intro st k h
    refine isoInv_foldl _ ?_ _ _ h
    intro st i h
    refine isoInv_foldl _ ?_ _ _ h
    intro st j h
    exact isoInv_processCell _ _ _ _ _ _ _ h
  exact hinv.2

/-! ## The instanced LOD program — second program of `src/unnamed/part_003`

`glm::vec3` over ℚ; `aabb` as in the course-provided `aabb.hpp` header
(a min and a max corner).  The frustum intersection test
(`intersect(aabb, frustum)` from `intersect.hpp`/`frustum.hpp`) and
`glm::length` are external library calls and enter as parameters. -/

structure vec3 where
  x : ℚ
  y : ℚ
  z : ℚ
deriving DecidableEq, Repr

def vec3.add (a b : vec3) : vec3 := ⟨a.x + b.x, a.y + b.y, a.z + b.z⟩

def vec3.sub (a b : vec3) : vec3 := ⟨a.x - b.x, a.y - b.y, a.z - b.z⟩

structure aabb where
  min : vec3
  max : vec3
deriving DecidableEq, Repr

/-- Embeds `int fixed_lod_value = 1;` — set once, never modified. -/
def fixed_lod_value : ℤ := 1

/-- The grid `for (i = -16; i < 16; ++i) for (j = -16; j < 16; ++j)`. -/
def gridIJ : List (ℤ × ℤ) :=
  (List.range 32).flatMap fun (a : ℕ) =>
    (List.range 32).map fun (b : ℕ) => ((a : ℤ) - 16, (b : ℤ) - 16)

/-- Embeds `glm::vec3 translation = {1.f * i, 0.f, 1.f * j};`. -/
def translationOf (ij : ℤ × ℤ) : vec3 := ⟨(ij.1 : ℚ), 0, (ij.2 : ℚ)⟩

/-- Embeds `aabb aabb(input_model.meshes[0].min + translation, input_model.meshes[0].max + translation);`. -/
def boxOf (meshMin meshMax : vec3) (ij : ℤ × ℤ) : aabb :=
  ⟨meshMin.add (translationOf ij), meshMax.add (translationOf ij)⟩

/-- Embeds `std::max(0, std::min(5, (int)(glm::length(translation - camera_position) / fixed_lod_value)))`,
the bucket an in-frustum translation is pushed into. -/
def bucketIdx (len : vec3 → ℚ) (camera_position : vec3) (ij : ℤ × ℤ) : ℕ :=
  (max 0 (min 5 (cFloatToInt
    (len ((translationOf ij).sub camera_position) / (fixed_lod_value : ℚ))))).toNat

/-- One iteration of the culling loop body. -/
def cullStep (intersectF : aabb → Bool) (len : vec3 → ℚ)
    (meshMin meshMax camera_position : vec3)
    (instances : List (List vec3)) (ij : ℤ × ℤ) : List (List vec3) :=
  if intersectF (boxOf meshMin meshMax ij) then
    let b := bucketIdx len camera_position ij
    instances.set b (instances.getD b [] ++ [translationOf ij])
  else instances

/-- Embeds `std::vector<glm::vec3> instances[6];` filled by the double loop over
the grid: each translation whose shifted bounding box passes the frustum
test is pushed into its LOD bucket. -/
def computeInstances (intersectF : aabb → Bool) (len : vec3 → ℚ)
    (meshMin meshMax camera_position : vec3) : List (List vec3) :=
  gridIJ.foldl (cullStep intersectF len meshMin meshMax camera_position)
    (List.replicate 6 [])

structure DrawCall where
  mesh : ℕ
  instanceCount : ℕ
deriving DecidableEq, Repr

/-- The draw loop `for (lod = 0; lod < 6; lod++)`: one
`glDrawElementsInstanced` per LOD with mesh `input_model.meshes[lod]` and
instance count `instances[lod].size()`. -/
def drawLods (instances : List (List vec3)) : List DrawCall :=
  (List.range 6).map fun lod => ⟨lod, (instances.getD lod []).length⟩

theorem bucketIdx_lt_6 (len : vec3 → ℚ) (camera_position : vec3) (ij : ℤ × ℤ) :
    bucketIdx len camera_position ij < 6 := by
  rw [bucketIdx]
  omega

theorem translationOf_injective : Function.Injective translationOf := by
  intro a b h
  rw [translationOf, translationOf, vec3.mk.injEq] at h
  obtain ⟨h1, -, h2⟩ := h
  rw [Prod.ext_iff]
  exact ⟨by exact_mod_cast h1, by exact_mod_cast h2⟩

theorem mem_gridIJ (i j : ℤ) :
    (i, j) ∈ gridIJ ↔ -16 ≤ i ∧ i < 16 ∧ -16 ≤ j ∧ j < 16 := by
  rw [gridIJ, List.mem_flatMap]
  constructor
  · rintro ⟨a, ha, hb⟩
    rw [List.mem_range] at ha
    rw [List.mem_map] at hb
    obtain ⟨b, hb, heq⟩ := hb
    rw [List.mem_range] at hb
    rw [Prod.mk.injEq] at heq
    obtain ⟨h1, h2⟩ := heq
    omega
  · rintro ⟨h1, h2, h3, h4⟩
    refine ⟨(i + 16).toNat, ?_, ?_⟩
    · rw [List.mem_range]
      omega
    · rw [List.mem_map]
      refine ⟨(j + 16).toNat, ?_, ?_⟩
      · rw [List.mem_range]
        omega
      · rw [Prod.mk.injEq]
        constructor <;> omega

theorem gridIJ_nodup : gridIJ.Nodup := by
  rw [gridIJ, List.nodup_flatMap]
  constructor
  · intro a ha
    refine (List.nodup_range 32).map ?_
    intro b1 b2 h
    rw [Prod.mk.injEq] at h
    omega
  · refine List.Pairwise.imp ?_ (List.nodup_range 32)
    intro a1 a2 hne p hp1 hp2
    rw [List.mem_map] at hp1 hp2
    obtain ⟨b1, -, h1⟩ := hp1
    obtain ⟨b2, -, h2⟩ := hp2
    rw [← h2, Prod.mk.injEq] at h1
    exact hne (by omega)

theorem replicate_getD_nil (b : ℕ) :
    (List.replicate 6 ([] : List vec3)).getD b [] = [] := by
  rw [List.getD_eq_getElem?_getD, List.getElem?_replicate]
  split <;> rfl

/-- The culling fold appends to bucket `b` exactly the translations of the
processed cells that pass the frustum test and select bucket `b`. -/
theorem cullFold_getD (intersectF : aabb → Bool) (len : vec3 → ℚ)
    (meshMin meshMax camera_position : vec3) (b : ℕ) (hb : b < 6)
    (l : List (ℤ × ℤ)) : ∀ acc : List (List vec3), acc.length = 6 →
    (l.foldl (cullStep intersectF len meshMin meshMax camera_position) acc).getD b []
      = acc.getD b []
        ++ (l.filter (fun ij => intersectF (boxOf meshMin meshMax ij)
              && (bucketIdx len camera_position ij == b))).map translationOf := by
  induction l with
  | nil =>
      intro acc hacc
      simp
  | cons ij l ih =>
      intro acc hacc
      rw [List.foldl_cons, List.filter_cons]
      by_cases hint : intersectF (boxOf meshMin meshMax ij) = true
      · have hb' := bucketIdx_lt_6 len camera_position ij
        have hset : cullStep intersectF len meshMin meshMax camera_position acc ij
            = acc.set (bucketIdx len camera_position ij)
                (acc.getD (bucketIdx len camera_position ij) []
                  ++ [translationOf ij]) := by
          rw [cullStep, if_pos hint]
        rw [hset, ih _ (by rw [List.length_set, hacc])]
        by_cases hidx : bucketIdx len camera_position ij = b
        · rw [if_pos (by simp [hint, hidx])]
          rw [List.getD_eq_getElem?_getD, hidx,
            List.getElem?_set_self (by omega), Option.getD_some]
          simp
        · rw [if_neg (by simp [hint, hidx])]
          rw [List.getD_eq_getElem?_getD, List.getElem?_set_ne hidx,
            ← List.getD_eq_getElem?_getD]
      · have hskip : cullStep intersectF len meshMin meshMax camera_position acc ij
            = acc := by
          rw [cullStep, if_neg hint]
        rw [hskip, ih _ hacc, if_neg (by simp [hint])]

/-- C1: for every grid translation `(i, 0, j)` with `i, j ∈ [-16, 16)`, the
axis-aligned bounding box tested against the frustum is the mesh box
shifted by the translation; a culled translation lands in no bucket (and
so is drawn zero times), a passing one lands exactly once in the single
bucket `min(5, ⌊|translation - camera_position| / fixed_lod_value⌋)`
clamped below at `0`; and bucket `lod` is drawn once with mesh number
`lod` and instance count equal to the bucket's size. -/
theorem lod_culling_correct (intersectF : aabb → Bool) (len : vec3 → ℚ)
    (meshMin meshMax camera_position : vec3) (i j : ℤ)
    (hi1 : -16 ≤ i) (hi2 : i < 16) (hj1 : -16 ≤ j) (hj2 : j < 16)
    (hlen : 0 ≤ len ((translationOf (i, j)).sub camera_position)) :
    boxOf meshMin meshMax (i, j)
      = ⟨meshMin.add (translationOf (i, j)), meshMax.add (translationOf (i, j))⟩ ∧
    (intersectF (boxOf meshMin meshMax (i, j)) = false →
      ∀ b < 6, translationOf (i, j)
        ∉ (computeInstances intersectF len meshMin meshMax camera_position).getD b []) ∧
    (intersectF (boxOf meshMin meshMax (i, j)) = true →
      (bucketIdx len camera_position (i, j) : ℤ)
          = max 0 (min 5 ⌊len ((translationOf (i, j)).sub camera_position)
              / (fixed_lod_value : ℚ)⌋) ∧
      ((computeInstances intersectF len meshMin meshMax camera_position).getD
          (bucketIdx len camera_position (i, j)) []).count (translationOf (i, j)) = 1 ∧
      (∀ b < 6, b ≠ bucketIdx len camera_position (i, j) →
        translationOf (i, j)
          ∉ (computeInstances intersectF len meshMin meshMax camera_position).getD b [])) ∧
    (drawLods (computeInstances intersectF len meshMin meshMax camera_position)).length = 6 ∧
    (∀ lod < 6,
      (drawLods (computeInstances intersectF len meshMin meshMax camera_position)).getD
          lod ⟨0, 0⟩
        = ⟨lod, ((computeInstances intersectF len meshMin meshMax
            camera_position).getD lod []).length⟩) := by
  have hmem : (i, j) ∈ gridIJ := (mem_gridIJ i j).mpr ⟨hi1, hi2, hj1, hj2⟩
  have hbucket : ∀ b, b < 6 →
      (computeInstances intersectF len meshMin meshMax camera_position).getD b []
        = (gridIJ.filter (fun ij => intersectF (boxOf meshMin meshMax ij)
            && (bucketIdx len camera_position ij == b))).map translationOf := by
    intro b hb
    rw [computeInstances,
      cullFold_getD intersectF len meshMin meshMax camera_position b hb gridIJ
        (List.replicate 6 []) (List.length_replicate 6 []),
      replicate_getD_nil, List.nil_append]
  refine ⟨rfl, ?_, ?_, ?_, ?_⟩
  · intro hcull b hb habs
    rw [hbucket b hb, List.mem_map] at habs
    obtain ⟨ij, hijf, hijt⟩ := habs
    obtain rfl := translationOf_injective hijt
    rw [List.mem_filter, hcull] at hijf
    simp at hijf
  · intro hpass
    refine ⟨?_, ?_, ?_⟩
    · rw [bucketIdx]
      have h1 : ((fixed_lod_value : ℤ) : ℚ) = 1 := by norm_num [fixed_lod_value]
      have hq : 0 ≤ len ((translationOf (i, j)).sub camera_position)
          / ((fixed_lod_value : ℤ) : ℚ) := by
        rw [h1, div_one]
        exact hlen
      rw [cFloatToInt_of_nonneg _ hq,
        Int.toNat_of_nonneg (le_max_left 0 _)]
    · rw [hbucket _ (bucketIdx_lt_6 len camera_position (i, j)),
        List.count_map_of_injective _ _ translationOf_injective]
      refine List.count_eq_one_of_mem (gridIJ_nodup.filter _) ?_
      rw [List.mem_filter]
      refine ⟨hmem, ?_⟩
      simp [hpass]
    · intro b hb hne habs
      rw [hbucket b hb, List.mem_map] at habs
      obtain ⟨ij, hijf, hijt⟩ := habs
      obtain rfl := translationOf_injective hijt
      rw [List.mem_filter] at hijf
      simp only [Bool.and_eq_true, beq_iff_eq] at hijf
      exact hne hijf.2.2.symm
  · rw [drawLods, List.length_map, List.length_range]
  · intro lod hlod
    rw [drawLods]
    exact getD_map_range 6 lod _ (DrawCall.mk 0 0) hlod

theorem lod_culling_correct_witness :
    (-16 ≤ (0 : ℤ)) ∧ ((0 : ℤ) < 16) ∧
    (0 ≤ (fun (_ : vec3) => (0 : ℚ)) ((translationOf (0, 0)).sub ⟨0, 0, 0⟩)) ∧
    boxOf ⟨0, 0, 0⟩ ⟨1, 1, 1⟩ (0, 0)
      = ⟨vec3.add ⟨0, 0, 0⟩ (translationOf (0, 0)),
         vec3.add ⟨1, 1, 1⟩ (translationOf (0, 0))⟩ :=
  ⟨by decide, by decide, le_refl 0,
   (lod_culling_correct (fun _ => true) (fun _ => 0) ⟨0, 0, 0⟩ ⟨1, 1, 1⟩ ⟨0, 0, 0⟩ 0 0
      (by decide) (by decide) (by decide) (by decide) (le_refl 0)).1⟩

/-! ## Shader helpers and the initialization/error pipeline

`create_shader` / `create_program` are duplicated in every file; the GL
driver's responses (compile status, info log, link status) are environment
inputs.  `glLinkProgram`'s outcome is modelled as a function of the
multiset of shaders attached to the program, per the GL specification,
where the attachment order is not observable. -/

def GL_TRUE : ℤ := 1

def EXIT_FAILURE : ℤ := 1

/-- Embeds `create_shader` of `src/2022/practice3/main.cpp`: compile, read
`GL_COMPILE_STATUS`, and throw `"Shader compilation failed: " + info_log`
unless the status is `GL_TRUE`. -/
def create_shader_practice3 (compileStatus : ℤ) (infoLog : String)
    (shaderId : ℕ) : Except String ℕ :=
  if compileStatus ≠ GL_TRUE then
    Except.error ("Shader compilation failed: " ++ infoLog)
  else Except.ok shaderId

/-- Embeds `create_shader` of `src/unnamed/part_000`: same check, but the raw
info log (read into a 1024-byte buffer) is thrown without a prefix. -/
def create_shader_part000 (compiled : ℤ) (infoLog : String)
    (shaderId : ℕ) : Except String ℕ :=
  if compiled ≠ GL_TRUE then Except.error (infoLog.take 1024)
  else Except.ok shaderId

/-- Embeds `create_shader` of `src/unnamed/part_001` (textually identical to the
practice3 copy). -/
def create_shader_part001 (compileStatus : ℤ) (infoLog : String)
    (shaderId : ℕ) : Except String ℕ :=
  if compileStatus ≠ GL_TRUE then
    Except.error ("Shader compilation failed: " ++ infoLog)
  else Except.ok shaderId

/-- Embeds `create_shader` of both programs of `src/unnamed/part_002` (textually
identical to the practice3 copy). -/
def create_shader_part002 (compileStatus : ℤ) (infoLog : String)
    (shaderId : ℕ) : Except String ℕ :=
  if compileStatus ≠ GL_TRUE then
    Except.error ("Shader compilation failed: " ++ infoLog)
  else Except.ok shaderId

/-- Embeds `create_shader` of both programs of `src/unnamed/part_003` (textually
identical to the practice3 copy). -/
def create_shader_part003 (compileStatus : ℤ) (infoLog : String)
    (shaderId : ℕ) : Except String ℕ :=
  if compileStatus ≠ GL_TRUE then
    Except.error ("Shader compilation failed: " ++ infoLog)
  else Except.ok shaderId

/-- The GL driver at `glLinkProgram`: link status and info log as a
function of the multiset of attached shaders. -/
def LinkEnv : Type := Multiset ℕ → ℤ × String

/-- The two-argument `create_program(vertex_shader, fragment_shader)`
(practice3, `part_001`, `part_002`, first program of `part_003`): attach
the two shaders, link, check `GL_LINK_STATUS`. -/
def create_program2 (link : LinkEnv) (vertex_shader fragment_shader : ℕ)
    (programId : ℕ) : Except String ℕ :=
  let attached : Multiset ℕ := vertex_shader ::ₘ fragment_shader ::ₘ 0
  let r := link attached
  if r.1 ≠ GL_TRUE then Except.error ("Program linkage failed: " ++ r.2)
  else Except.ok programId

/-- Embeds `create_program` of `src/unnamed/part_000`: identical checks, error
message without prefix (1024-byte buffer). -/
def create_program_part000 (link : LinkEnv) (vertex_shader fragment_shader : ℕ)
    (programId : ℕ) : Except String ℕ :=
  let attached : Multiset ℕ := vertex_shader ::ₘ fragment_shader ::ₘ 0
  let r := link attached
  if r.1 ≠ GL_TRUE then Except.error (r.2.take 1024)
  else Except.ok programId

/-- The variadic `template <typename ... Shaders> create_program(shaders...)`
of the second program of `part_003`: `(glAttachShader(result, shaders), ...)`
attaches the pack in order, then links. -/
def create_programV (link : LinkEnv) (shaders : List ℕ)
    (programId : ℕ) : Except String ℕ :=
  let attached : Multiset ℕ := shaders.foldl (fun m s => s ::ₘ m) 0
  let r := link attached
  if r.1 ≠ GL_TRUE then Except.error ("Program linkage failed: " ++ r.2)
  else Except.ok programId

theorem isOk_error {α : Type} (e : String) :
    (Except.error e : Except String α).isOk = false := rfl

theorem isOk_ok {α : Type} (a : α) :
    (Except.ok a : Except String α).isOk = true := rfl

/-- C5: the duplicated shader-compilation helpers are behaviorally
equivalent: every file's `create_shader` has the same success/failure
outcome for every type/source (the `part_000` copy differs only in the
thrown message; the other copies are identical functions), the variadic
`create_program` on one vertex and one fragment shader equals the
two-argument form, and the linked program is independent of the order in
which the two shaders are attached. -/
theorem shader_helpers_equivalent (status : ℤ) (infoLog : String)
    (shaderId : ℕ) (link : LinkEnv) (vs fs pid : ℕ) :
    ((create_shader_part000 status infoLog shaderId).isOk
      = (create_shader_practice3 status infoLog shaderId).isOk) ∧
    create_shader_part001 status infoLog shaderId
      = create_shader_practice3 status infoLog shaderId ∧
    create_shader_part002 status infoLog shaderId
      = create_shader_practice3 status infoLog shaderId ∧
    create_shader_part003 status infoLog shaderId
      = create_shader_practice3 status infoLog shaderId ∧
    create_programV link [vs, fs] pid = create_program2 link vs fs pid ∧
    create_program2 link fs vs pid = create_program2 link vs fs pid ∧
    ((create_program_part000 link vs fs pid).isOk
      = (create_program2 link vs fs pid).isOk) := by
  refine ⟨?_, rfl, rfl, rfl, ?_, ?_, ?_⟩
  · rw [create_shader_part000, create_shader_practice3]
    by_cases h : status ≠ GL_TRUE
    · rw [if_pos h, if_pos h, isOk_error, isOk_error]
    · rw [if_neg h, if_neg h]
  · rw [create_programV, create_program2]
    rw [show ([vs, fs].foldl (fun m s => s ::ₘ m) (0 : Multiset ℕ))
        = vs ::ₘ fs ::ₘ 0 from Multiset.cons_swap fs vs 0]
  · rw [create_program2, create_program2]
    rw [show (fs ::ₘ vs ::ₘ (0 : Multiset ℕ)) = vs ::ₘ fs ::ₘ 0 from
      Multiset.cons_swap fs vs 0]
  · rw [create_program_part000, create_program2]
    by_cases h : (link (vs ::ₘ fs ::ₘ 0)).1 ≠ GL_TRUE
    · rw [if_pos h, if_pos h, isOk_error, isOk_error]
    · rw [if_neg h, if_neg h]

/-- The environment a program's initialization runs against: SDL, GLEW and
GL driver responses. -/
structure GLEnv where
  sdlInitResult : ℤ
  sdlError : String
  windowOk : Bool
  contextOk : Bool
  glewResult : ℤ
  glewError : String
  version33 : Bool
  vsStatus : ℤ
  vsLog : String
  fsStatus : ℤ
  fsLog : String
  linkStatus : ℤ
  linkLog : String

/-- The initialization sequence shared by every program of the repository
(`main` up to the first successful `create_program` call): `SDL_Init`,
`SDL_CreateWindow`, `SDL_GL_CreateContext`, `glewInit`, the
`GLEW_VERSION_3_3` check, two `create_shader` calls, one `create_program`
call.  Each failing check throws `std::runtime_error`, modelled as
`Except.error` with the thrown message; an exception short-circuits the
rest of the sequence. -/
def initSequence (env : GLEnv) : Except String Unit :=
  if env.sdlInitResult ≠ 0 then Except.error ("SDL_Init: " ++ env.sdlError)
  else if env.windowOk = false then
    Except.error ("SDL_CreateWindow: " ++ env.sdlError)
  else if env.contextOk = false then
    Except.error ("SDL_GL_CreateContext: " ++ env.sdlError)
  else if env.glewResult ≠ 0 then
    Except.error ("glewInit: " ++ env.glewError)
  else if env.version33 = false then
    Except.error "OpenGL 3.3 is not supported"
  else match create_shader_practice3 env.vsStatus env.vsLog 1 with
    | Except.error e => Except.error e
    | Except.ok _ =>
      match create_shader_practice3 env.fsStatus env.fsLog 2 with
      | Except.error e => Except.error e
      | Except.ok _ =>
        match create_program2 (fun _ => (env.linkStatus, env.linkLog)) 1 2 3 with
        | Except.error e => Except.error e
        | Except.ok _ => Except.ok ()

/-- Embeds `int main() try { … } catch (std::exception const & e) { std::cerr << e.what() << std::endl; return EXIT_FAILURE; }`:
the result is the pair (exit code, line printed to standard error). -/
def programMain (env : GLEnv) : ℤ × Option String :=
  match initSequence env with
  | Except.error e => (EXIT_FAILURE, some e)
  | Except.ok _ => (0, none)

theorem initSequence_isOk_iff (env : GLEnv) :
    (initSequence env).isOk = true ↔
      env.sdlInitResult = 0 ∧ env.windowOk = true ∧ env.contextOk = true
        ∧ env.glewResult = 0 ∧ env.version33 = true
        ∧ env.vsStatus = GL_TRUE ∧ env.fsStatus = GL_TRUE
        ∧ env.linkStatus = GL_TRUE := by
  rw [initSequence]
  by_cases h1 : env.sdlInitResult ≠ 0
  · rw [if_pos h1, isOk_error]
    simp [h1]
  · rw [if_neg h1]
    by_cases h2 : env.windowOk = false
    · rw [if_pos h2, isOk_error]
      simp [h2]
    · rw [if_neg h2]
      by_cases h3 : env.contextOk = false
      · rw [if_pos h3, isOk_error]
        simp [h3]
      · rw [if_neg h3]
        by_cases h4 : env.glewResult ≠ 0
        · rw [if_pos h4, isOk_error]
          simp [h4]
        · rw [if_neg h4]
          by_cases h5 : env.version33 = false
          · rw [if_pos h5, isOk_error]
            simp [h5]
          · rw [if_neg h5]
            by_cases h6 : env.vsStatus = GL_TRUE <;>
              by_cases h7 : env.fsStatus = GL_TRUE <;>
                by_cases h8 : env.linkStatus = GL_TRUE <;>
                  simp_all [create_shader_practice3, create_program2,
                    isOk_error, isOk_ok, Except.isOk]

/-- C4: for every program, each initialization failure (`SDL_Init`
nonzero, null window, null GL context, `glewInit` error, OpenGL 3.3
unsupported, shader compile status ≠ `GL_TRUE`, or link status ≠
`GL_TRUE`) raises a runtime failure that propagates to the top-level
catch, is printed to standard error, and makes the process exit with
`EXIT_FAILURE` (nonzero); no handler retries or recovers. -/
theorem init_failure_handling (env : GLEnv)
    (h : env.sdlInitResult ≠ 0 ∨ env.windowOk = false ∨ env.contextOk = false
      ∨ env.glewResult ≠ 0 ∨ env.version33 = false
      ∨ env.vsStatus ≠ GL_TRUE ∨ env.fsStatus ≠ GL_TRUE
      ∨ env.linkStatus ≠ GL_TRUE) :
    (initSequence env).isOk = false ∧
    (programMain env).1 = EXIT_FAILURE ∧
    (programMain env).1 ≠ 0 ∧
    (programMain env).2.isSome = true := by
  have hnot : ¬ (initSequence env).isOk = true := by
    rw [initSequence_isOk_iff]
    rintro ⟨c1, c2, c3, c4, c5, c6, c7, c8⟩
    rcases h with h | h | h | h | h | h | h | h <;> simp_all
  have hfalse : (initSequence env).isOk = false := by
    cases hok : (initSequence env).isOk
    · rfl
    · exact absurd hok hnot
  cases hseq : initSequence env with
  | error e =>
      refine ⟨isOk_error e, ?_, ?_, ?_⟩ <;> rw [programMain, hseq] <;>
        norm_num [EXIT_FAILURE]
  | ok u =>
      rw [hseq, isOk_ok] at hfalse
      exact absurd hfalse (by norm_num)

theorem init_failure_handling_witness :
    (((1 : ℤ) ≠ 0 ∨ (true : Bool) = false ∨ (true : Bool) = false
        ∨ (0 : ℤ) ≠ 0 ∨ (true : Bool) = false
        ∨ (1 : ℤ) ≠ GL_TRUE ∨ (1 : ℤ) ≠ GL_TRUE ∨ (1 : ℤ) ≠ GL_TRUE)) ∧
    (programMain ⟨1, "err", true, true, 0, "g", true, 1, "", 1, "", 1, ""⟩).1
      = EXIT_FAILURE :=
  ⟨Or.inl (by decide),
   (init_failure_handling ⟨1, "err", true, true, 0, "g", true, 1, "", 1, "", 1, ""⟩
      (Or.inl (by decide))).2.1⟩

end GraphicsCourse
